import Mathlib

/-!
Shallow embedding of the `ayman-othman/assets` product-lookup repository.

The repository holds two variants of a `ProductLookupService`:
* `src/productLookup.js` — a plain class whose constructor builds two maps
  (canonical criteria key → product id, product id → criteria) and offers
  `getProductIdByCriteria`, `getCriteriaByProductId` (plain),
  `getAllProducts` and `searchByPartialCriteria`.
* the Angular variant (in the unnamed source file) — adds an `addonsMap`,
  a recursive `traverseTree` option resolver and an enriched
  `getCriteriaByProductId`.

JavaScript objects and `Map`s are modelled as association lists in insertion
order: reading a property is `lookupA` (first match), `Map.set` / property
write is `setKey` (replace in place, else append), and iteration order is the
list order.
-/

namespace Assets

/-- A criteria mapping (a JS object with string values), as an association
list in insertion order.  Genuine JS objects have no duplicate keys; theorems
that need this assume `NodupKeys`. -/
abbrev MatchCriteria := List (String × String)

/-- Property read `m[k]` on a JS object / `Map.get`: the value at the first
matching key, `none` when the key is absent. -/
def lookupA {α : Type} : List (String × α) → String → Option α
  | [], _ => none
  | (k', v) :: rest, k => if k' = k then some v else lookupA rest k

/-- Property write `m[k] = v` / `Map.set(k, v)`: replace the value at an
existing key in place (keeping its position), otherwise append the new pair. -/
def setKey {α : Type} : List (String × α) → String → α → List (String × α)
  | [], k, v => [(k, v)]
  | (k', v') :: rest, k, v =>
    if k' = k then (k, v) :: rest else (k', v') :: setKey rest k v

/-- The keys of an association list, in insertion order (`Object.keys`). -/
def keysOf {α : Type} (l : List (String × α)) : List String :=
  l.map Prod.fst

/-- A JS object invariant: no duplicate keys. -/
def NodupKeys {α : Type} (l : List (String × α)) : Prop :=
  (keysOf l).Nodup

instance {α : Type} (l : List (String × α)) : Decidable (NodupKeys l) :=
  inferInstanceAs (Decidable (keysOf l).Nodup)

/-- Lexicographic code-point comparison of character lists, as an executable
Boolean predicate (the default JS `Array.prototype.sort` string comparison). -/
def charListLe : List Char → List Char → Bool
  | [], _ => true
  | _ :: _, [] => false
  | a :: as, b :: bs =>
    if a < b then true
    else if b < a then false
    else charListLe as bs

/-- The string order used by `Object.keys(criteria).sort()`. -/
def StrLe (a b : String) : Prop :=
  charListLe a.data b.data = true

instance : DecidableRel StrLe := fun a b =>
  inferInstanceAs (Decidable (charListLe a.data b.data = true))

theorem charListLe_total : ∀ l₁ l₂ : List Char,
    charListLe l₁ l₂ = true ∨ charListLe l₂ l₁ = true
  | [], _ => Or.inl rfl
  | _ :: _, [] => Or.inr rfl
  | a :: as, b :: bs => by
    rcases lt_trichotomy a b with h | h | h
    · left
      simp [charListLe, h]
    · subst h
      rcases charListLe_total as bs with ih | ih
      · left
        simp [charListLe, ih]
      · right
        simp [charListLe, ih]
    · right
      simp [charListLe, h]

theorem charListLe_trans : ∀ {l₁ l₂ l₃ : List Char},
    charListLe l₁ l₂ = true → charListLe l₂ l₃ = true → charListLe l₁ l₃ = true
  | [], _, _, _, _ => rfl
  | _ :: _, [], _, h1, _ => by simp [charListLe] at h1
  | _ :: _, _ :: _, [], _, h2 => by simp [charListLe] at h2
  | a :: as, b :: bs, c :: cs, h1, h2 => by
    rcases lt_trichotomy a b with hab | hab | hab
    · rcases lt_trichotomy b c with hbc | hbc | hbc
      · simp [charListLe, lt_trans hab hbc]
      · subst hbc
        simp [charListLe, hab]
      · simp only [charListLe, if_neg (asymm hbc), if_pos hbc] at h2
        cases h2
    · subst hab
      rcases lt_trichotomy a c with hac | hac | hac
      · simp [charListLe, hac]
      · subst hac
        simp only [charListLe, lt_irrefl, if_neg (lt_irrefl a), if_false] at h1 h2 ⊢
        exact charListLe_trans h1 h2
      · simp only [charListLe, if_neg (asymm hac), if_pos hac] at h2
        cases h2
    · simp only [charListLe, if_neg (asymm hab), if_pos hab] at h1
      cases h1

theorem charListLe_antisymm : ∀ {l₁ l₂ : List Char},
    charListLe l₁ l₂ = true → charListLe l₂ l₁ = true → l₁ = l₂
  | [], [], _, _ => rfl
  | [], _ :: _, _, h2 => by simp [charListLe] at h2
  | _ :: _, [], h1, _ => by simp [charListLe] at h1
  | a :: as, b :: bs, h1, h2 => by
    rcases lt_trichotomy a b with hab | hab | hab
    · simp only [charListLe, if_neg (asymm hab), if_pos hab] at h2
      cases h2
    · subst hab
      simp only [charListLe, if_neg (lt_irrefl a), if_false] at h1 h2
      rw [charListLe_antisymm h1 h2]
    · simp only [charListLe, if_neg (asymm hab), if_pos hab] at h1
      cases h1

instance : IsTotal String StrLe :=
  ⟨fun a b => charListLe_total a.data b.data⟩

instance : IsTrans String StrLe :=
  ⟨fun _ _ _ h1 h2 => charListLe_trans h1 h2⟩

instance : IsAntisymm String StrLe :=
  ⟨fun a b h1 h2 => String.toList_inj.mp (charListLe_antisymm h1 h2)⟩

/-- `generateCriteriaKey` from both variants: sort the keys of the criteria
object, render each as `"key:value"` and join with `"|"`. -/
def generateCriteriaKey (criteria : MatchCriteria) : String :=
  let sortedKeys := List.insertionSort StrLe (keysOf criteria)
  String.intercalate "|" (sortedKeys.map (fun k => k ++ ":" ++ ((lookupA criteria k).getD "")))

theorem lookupA_setKey {α : Type} (m : List (String × α)) (k k' : String) (v : α) :
    lookupA (setKey m k v) k' = if k = k' then some v else lookupA m k' := by
  induction m with
  | nil => simp [setKey, lookupA]
  | cons hd tl ih =>
    obtain ⟨a, b⟩ := hd
    by_cases hak : a = k
    · subst hak
      by_cases h : a = k'
      · simp [setKey, lookupA, h]
      · simp [setKey, lookupA, h]
    · by_cases h1 : a = k'
      · have h2 : ¬k = k' := fun h => hak (h1.trans h.symm)
        have h3 : ¬k' = k := fun h => h2 h.symm
        simp [setKey, lookupA, hak, h1, h2, h3]
      · simp [setKey, lookupA, hak, h1, ih]

theorem keysOf_setKey {α : Type} (m : List (String × α)) (k : String) (v : α) :
    keysOf (setKey m k v) = if k ∈ keysOf m then keysOf m else keysOf m ++ [k] := by
  induction m with
  | nil => simp [setKey, keysOf]
  | cons hd tl ih =>
    obtain ⟨a, b⟩ := hd
    by_cases hak : a = k
    · subst hak
      simp [setKey, keysOf]
    · have hka : ¬k = a := fun h => hak h.symm
      simp only [setKey, if_neg hak, keysOf, List.map_cons, List.mem_cons]
      simp only [keysOf] at ih
      rw [ih]
      by_cases hk : k ∈ tl.map Prod.fst
      · simp [hk, hka]
      · simp [hk, hka]

theorem nodupKeys_setKey {α : Type} {m : List (String × α)} (k : String) (v : α)
    (h : NodupKeys m) : NodupKeys (setKey m k v) := by
  unfold NodupKeys at h ⊢
  rw [keysOf_setKey]
  by_cases hk : k ∈ keysOf m
  · simpa [hk] using h
  · simp only [hk, if_false]
    simpa [List.nodup_append] using ⟨h, fun hmem => hk hmem⟩

theorem lookupA_eq_none_iff {α : Type} (l : List (String × α)) (k : String) :
    lookupA l k = none ↔ k ∉ keysOf l := by
  induction l with
  | nil => simp [lookupA, keysOf]
  | cons hd tl ih =>
    obtain ⟨a, b⟩ := hd
    by_cases hak : a = k
    · subst hak
      simp [lookupA, keysOf]
    · have hka : ¬k = a := fun h => hak h.symm
      simp [lookupA, hak, keysOf, ih, hka]

theorem lookupA_eq_some_iff_mem {α : Type} {l : List (String × α)} (hnd : NodupKeys l)
    (k : String) (v : α) : lookupA l k = some v ↔ (k, v) ∈ l := by
  induction l with
  | nil => simp [lookupA]
  | cons hd tl ih =>
    obtain ⟨a, b⟩ := hd
    have htl : NodupKeys tl := by
      unfold NodupKeys keysOf at hnd ⊢
      exact (List.nodup_cons.mp hnd).2
    have hhd : a ∉ keysOf tl := by
      unfold NodupKeys keysOf at hnd
      simpa [keysOf] using (List.nodup_cons.mp hnd).1
    by_cases hak : a = k
    · subst hak
      have hL : lookupA ((a, b) :: tl) a = some b := by simp [lookupA]
      rw [hL]
      simp only [Option.some.injEq, List.mem_cons, Prod.mk.injEq]
      constructor
      · intro hbv
        exact Or.inl (by simp [hbv])
      · rintro (⟨-, rfl⟩ | hmem)
        · rfl
        · exact absurd (List.mem_map_of_mem Prod.fst hmem) hhd
    · simp only [lookupA, if_neg hak, List.mem_cons, Prod.mk.injEq]
      rw [ih htl]
      constructor
      · exact Or.inr
      · rintro (⟨rfl, -⟩ | hmem)
        · exact absurd rfl hak
        · exact hmem

theorem lookupA_perm {α : Type} {l₁ l₂ : List (String × α)} (hp : l₁.Perm l₂)
    (hnd : NodupKeys l₁) (k : String) : lookupA l₁ k = lookupA l₂ k := by
  have hnd₂ : NodupKeys l₂ := by
    unfold NodupKeys keysOf at hnd ⊢
    exact (hp.map Prod.fst).nodup_iff.mp hnd
  cases h : lookupA l₁ k with
  | none =>
    rw [lookupA_eq_none_iff] at h
    have : k ∉ keysOf l₂ := fun hmem =>
      h ((hp.map Prod.fst).mem_iff.mpr hmem)
    exact ((lookupA_eq_none_iff l₂ k).mpr this).symm
  | some v =>
    rw [lookupA_eq_some_iff_mem hnd] at h
    exact ((lookupA_eq_some_iff_mem hnd₂ k v).mpr (hp.mem_iff.mp h)).symm

/-! ## The option-tree data model of the Angular variant -/

mutual
/-- `TreeNode` interface: one criterion dimension with its selectable options. -/
inductive TreeNode : Type where
  | mk (id label labelAr ty : String) (required : Bool) (options : List TreeOption)

/-- `TreeOption` interface: one selectable value, optionally opening a nested
`children` node. -/
inductive TreeOption : Type where
  | mk (value label labelAr : String) (children : Option TreeNode)
end

def TreeNode.id : TreeNode → String
  | .mk i _ _ _ _ _ => i

def TreeNode.options : TreeNode → List TreeOption
  | .mk _ _ _ _ _ o => o

def TreeOption.value : TreeOption → String
  | .mk v _ _ _ => v

def TreeOption.children : TreeOption → Option TreeNode
  | .mk _ _ _ c => c

mutual
/-- Depth of a tree node: 1 + the deepest `children` subtree among its
options.  This bounds the recursion depth of `traverseTree`. -/
def nodeDepth : TreeNode → Nat
  | .mk _ _ _ _ _ opts => 1 + optionsDepth opts

def optionsDepth : List TreeOption → Nat
  | [] => 0
  | o :: rest => max (optDepth o) (optionsDepth rest)

def optDepth : TreeOption → Nat
  | .mk _ _ _ none => 0
  | .mk _ _ _ (some t) => nodeDepth t
end

theorem optDepth_le_optionsDepth {opt : TreeOption} {opts : List TreeOption}
    (h : opt ∈ opts) : optDepth opt ≤ optionsDepth opts := by
  induction opts with
  | nil => cases h
  | cons o rest ih =>
    rcases List.mem_cons.mp h with rfl | hmem
    · exact le_max_left _ _
    · exact le_trans (ih hmem) (le_max_right _ _)

theorem nodeDepth_children_lt {node : TreeNode} {opt : TreeOption} {child : TreeNode}
    (hmem : opt ∈ node.options) (hc : opt.children = some child) :
    nodeDepth child < nodeDepth node := by
  obtain ⟨i, lb, la, ty, req, opts⟩ := node
  obtain ⟨v, olb, ola, ch⟩ := opt
  cases ch with
  | none => cases hc
  | some t =>
    cases hc
    have h1 : optDepth (TreeOption.mk v olb ola (some child)) ≤ optionsDepth opts :=
      optDepth_le_optionsDepth hmem
    have h2 : optDepth (TreeOption.mk v olb ola (some child)) = nodeDepth child := rfl
    have h3 : nodeDepth (TreeNode.mk i lb la ty req opts) = 1 + optionsDepth opts := rfl
    omega

/-- `traverseTree` of the Angular variant: stop when the criteria value for the
node's id is absent or falsy (the empty string), otherwise record the first
option whose `value` equals it and recurse into its `children` when present.
The mutated `selectedOptions` object is modelled by threading the updated
association list through. -/
def traverseTree (node : TreeNode) (criteria : MatchCriteria)
    (selectedOptions : List (String × TreeOption)) : List (String × TreeOption) :=
  match lookupA criteria node.id with
  | none => selectedOptions
  | some v =>
    if v = "" then selectedOptions
    else
      match hf : node.options.find? (fun opt => opt.value == v) with
      | none => selectedOptions
      | some opt =>
        let selected := setKey selectedOptions node.id opt
        match hc : opt.children with
        | none => selected
        | some child => traverseTree child criteria selected
termination_by nodeDepth node
decreasing_by
  exact nodeDepth_children_lt (List.mem_of_find?_eq_some hf) hc

theorem traverseTree_none (node : TreeNode) (c : MatchCriteria)
    (so : List (String × TreeOption)) (hv : lookupA c node.id = none) :
    traverseTree node c so = so := by
  rw [traverseTree.eq_def, hv]

theorem traverseTree_falsy (node : TreeNode) (c : MatchCriteria)
    (so : List (String × TreeOption)) (hv : lookupA c node.id = some "") :
    traverseTree node c so = so := by
  rw [traverseTree.eq_def, hv]
  simp

theorem traverseTree_nomatch (node : TreeNode) (c : MatchCriteria)
    (so : List (String × TreeOption)) (v : String)
    (hv : lookupA c node.id = some v) (hne : v ≠ "")
    (hf : node.options.find? (fun opt => opt.value == v) = none) :
    traverseTree node c so = so := by
  rw [traverseTree.eq_def, hv]
  dsimp only
  rw [if_neg hne]
  split
  · rfl
  · rename_i opt heq
    rw [hf] at heq
    cases heq

theorem traverseTree_leaf (node : TreeNode) (c : MatchCriteria)
    (so : List (String × TreeOption)) (v : String) (opt : TreeOption)
    (hv : lookupA c node.id = some v) (hne : v ≠ "")
    (hf : node.options.find? (fun o => o.value == v) = some opt)
    (hc : opt.children = none) :
    traverseTree node c so = setKey so node.id opt := by
  rw [traverseTree.eq_def, hv]
  dsimp only
  rw [if_neg hne]
  split
  · rename_i heq
    rw [hf] at heq
    cases heq
  · rename_i opt' heq
    rw [hf] at heq
    injection heq with heq'
    subst heq'
    split
    · rfl
    · rename_i child heqc
      rw [hc] at heqc
      cases heqc

theorem traverseTree_descend (node : TreeNode) (c : MatchCriteria)
    (so : List (String × TreeOption)) (v : String) (opt : TreeOption) (child : TreeNode)
    (hv : lookupA c node.id = some v) (hne : v ≠ "")
    (hf : node.options.find? (fun o => o.value == v) = some opt)
    (hc : opt.children = some child) :
    traverseTree node c so = traverseTree child c (setKey so node.id opt) := by
  rw [traverseTree.eq_def, hv]
  dsimp only
  rw [if_neg hne]
  split
  · rename_i heq
    rw [hf] at heq
    cases heq
  · rename_i opt' heq
    rw [hf] at heq
    injection heq with heq'
    subst heq'
    split
    · rename_i heqc
      rw [hc] at heqc
      cases heqc
    · rename_i child' heqc
      rw [hc] at heqc
      injection heqc with heqc'
      subst heqc'
      rfl

theorem nodeDepth_pos (node : TreeNode) : 1 ≤ nodeDepth node := by
  cases node
  rw [nodeDepth]
  omega

theorem traverseTree_nodupKeys : ∀ (node : TreeNode) (criteria : MatchCriteria)
    (so : List (String × TreeOption)),
    NodupKeys so → NodupKeys (traverseTree node criteria so) := by
  intro node criteria so
  induction node, criteria, so using traverseTree.induct with
  | case1 node c so hv =>
    intro h
    rw [traverseTree_none node c so hv]
    exact h
  | case2 node c so hv =>
    intro h
    rw [traverseTree_falsy node c so hv]
    exact h
  | case3 node c so v hv hveq hf =>
    intro h
    rw [traverseTree_nomatch node c so v hv hveq hf]
    exact h
  | case4 node c so v hv hveq opt hf hc =>
    intro h
    rw [traverseTree_leaf node c so v opt hv hveq hf hc]
    exact nodupKeys_setKey node.id opt h
  | case5 node c so v hv hveq opt hf selected child hc ih =>
    intro h
    rw [traverseTree_descend node c so v opt child hv hveq hf hc]
    exact ih (nodupKeys_setKey node.id opt h)

/-- A fuel-indexed version of `traverseTree`: `none` means the fuel ran out
before the walk finished.  It performs exactly the recursion of the source
`traverseTree`, spending one unit of fuel per visited node. -/
def traverseTreeFuel : Nat → TreeNode → MatchCriteria → List (String × TreeOption) →
    Option (List (String × TreeOption))
  | 0, _, _, _ => none
  | fuel + 1, node, criteria, so =>
    match lookupA criteria node.id with
    | none => some so
    | some v =>
      if v = "" then some so
      else
        match node.options.find? (fun opt => opt.value == v) with
        | none => some so
        | some opt =>
          match opt.children with
          | none => some (setKey so node.id opt)
          | some child => traverseTreeFuel fuel child criteria (setKey so node.id opt)

/-! ## The catalog document data model -/

/-- `Addon` interface of the Angular variant. -/
structure Addon where
  id : String
  name : String
  nameAr : String
  maxInstances : Nat
  itemChoiceKey : String
  pricingKey : String
  tree : TreeNode

/-- `Product` interface: `matchCriteria` is the criteria object. -/
structure Product where
  id : String
  addonType : String
  matchCriteria : MatchCriteria

/-- The `attributes` payload of the input document.  `addons` and `products`
are `Option`s because `initialize` guards both with a JS truthiness test
(`if (!this.data.attributes.products) return`): `none` models an absent /
null / undefined sequence. -/
structure DocAttributes where
  controlType : String
  configGroupName : String
  addons : Option (List Addon)
  products : Option (List Product)

/-- The input document (`ProductData` interface / `jsonData`). -/
structure ProductData where
  attributes : DocAttributes

/-- `EnrichedCriteria` returned by the Angular `getCriteriaByProductId`. -/
structure EnrichedCriteria where
  productId : String
  addonType : String
  matchCriteria : MatchCriteria
  selectedOptions : List (String × TreeOption)
  addon : Addon

/-- One step of the products `forEach` in `initialize`: register
`productId -> matchCriteria` and `canonicalKey -> productId` into the two
maps (`Map.set` semantics, so a later product silently overwrites). -/
def registerProduct (maps : List (String × MatchCriteria) × List (String × String))
    (p : Product) : List (String × MatchCriteria) × List (String × String) :=
  (setKey maps.1 p.id p.matchCriteria,
   setKey maps.2 (generateCriteriaKey p.matchCriteria) p.id)

/-! ## The plain JS variant (`src/productLookup.js`) -/

namespace JS

/-- State of the JS `ProductLookupService` after its constructor ran:
the constructor stores `jsonData` and calls `initialize`, which fills both
maps from `data.attributes.products` when that sequence is present. -/
structure ProductLookupService where
  data : ProductData
  criteriaToProductId : List (String × String)
  productIdToCriteria : List (String × MatchCriteria)

/-- `new ProductLookupService(jsonData)`: empty maps, then `initialize`. -/
def ProductLookupService.make (jsonData : ProductData) : ProductLookupService :=
  let maps :=
    match jsonData.attributes.products with
    | none => (([] : List (String × MatchCriteria)), ([] : List (String × String)))
    | some products => products.foldl registerProduct ([], [])
  { data := jsonData, criteriaToProductId := maps.2, productIdToCriteria := maps.1 }

/-- `getProductIdByCriteria`: canonicalize, then O(1) map lookup. -/
def ProductLookupService.getProductIdByCriteria (s : ProductLookupService)
    (criteria : MatchCriteria) : Option String :=
  lookupA s.criteriaToProductId (generateCriteriaKey criteria)

/-- Plain `getCriteriaByProductId`: direct map lookup. -/
def ProductLookupService.getCriteriaByProductId (s : ProductLookupService)
    (productId : String) : Option MatchCriteria :=
  lookupA s.productIdToCriteria productId

/-- `getAllProducts`: iterate the id→criteria map in insertion order,
collecting `{id, criteria}` pairs. -/
def ProductLookupService.getAllProducts (s : ProductLookupService) :
    List (String × MatchCriteria) :=
  s.productIdToCriteria

/-- `searchByPartialCriteria`: linear scan keeping the products whose criteria
object agrees with every key-value entry of the given object. -/
def ProductLookupService.searchByPartialCriteria (s : ProductLookupService)
    (pc : MatchCriteria) : List (String × MatchCriteria) :=
  s.productIdToCriteria.filter
    (fun e => pc.all (fun kv => lookupA e.2 kv.1 == some kv.2))

end JS

/-! ## The Angular variant (unnamed source file) -/

namespace NG

/-- State of the Angular `ProductLookupService`.  Its constructor creates the
three empty maps and a null `data`; `initialize` fills them. -/
structure ServiceState where
  criteriaToProductId : List (String × String)
  productIdToCriteria : List (String × MatchCriteria)
  addonsMap : List (String × Addon)
  data : Option ProductData

/-- The constructor's state: empty maps, `data = null`. -/
def ServiceState.empty : ServiceState :=
  { criteriaToProductId := [], productIdToCriteria := [], addonsMap := [], data := none }

/-- The `initialize(jsonData)` method of the Angular variant (named
`svcInitialize` here because its source name is reserved in Lean).  Note that
it only *adds* to the maps already in the state — the source never clears
them. -/
def svcInitialize (s : ServiceState) (d : ProductData) : ServiceState :=
  let addonsMap :=
    match d.attributes.addons with
    | none => s.addonsMap
    | some addons => addons.foldl (fun m a => setKey m a.id a) s.addonsMap
  let maps :=
    match d.attributes.products with
    | none => (s.productIdToCriteria, s.criteriaToProductId)
    | some products => products.foldl registerProduct (s.productIdToCriteria, s.criteriaToProductId)
  { criteriaToProductId := maps.2, productIdToCriteria := maps.1,
    addonsMap := addonsMap, data := some d }

/-- Angular `getProductIdByCriteria`: canonicalize, then map lookup. -/
def getProductIdByCriteria (s : ServiceState) (criteria : MatchCriteria) : Option String :=
  lookupA s.criteriaToProductId (generateCriteriaKey criteria)

/-- The products sequence the enrichment step scans
(`this.data.attributes.products`).  In JS an uninitialized `data` or an absent
`products` makes this access throw; theorems about enrichment therefore
restrict attention to initialized states where both are present, on which the
`getD []` default is never exercised. -/
def ServiceState.productsList (s : ServiceState) : List Product :=
  ((s.data.map (fun d => d.attributes.products)).getD none).getD []

/-- Enriched `getCriteriaByProductId`: criteria lookup, then a linear scan of
the document's products for the id, then the addon lookup, then tree
resolution starting from an empty `selectedOptions` object. -/
def getCriteriaByProductId (s : ServiceState) (productId : String) :
    Option EnrichedCriteria :=
  match lookupA s.productIdToCriteria productId with
  | none => none
  | some matchCriteria =>
    match s.productsList.find? (fun p => p.id == productId) with
    | none => none
    | some product =>
      match lookupA s.addonsMap product.addonType with
      | none => none
      | some addon =>
        some { productId := productId, addonType := product.addonType,
               matchCriteria := matchCriteria,
               selectedOptions := traverseTree addon.tree matchCriteria [],
               addon := addon }

end NG

/-! ## Last-write-wins characterization of the map builds -/

theorem lookupA_foldl_setKey {α β : Type} (f : β → String) (g : β → α)
    (l : List β) (m : List (String × α)) (k : String) :
    lookupA (l.foldl (fun acc x => setKey acc (f x) (g x)) m) k
      = ((l.reverse.find? (fun x => f x == k)).map g).or (lookupA m k) := by
  induction l generalizing m with
  | nil => simp
  | cons x l ih =>
    simp only [List.foldl_cons, List.reverse_cons, List.find?_append]
    rw [ih]
    cases hfind : l.reverse.find? (fun x => f x == k) with
    | some y => simp
    | none =>
      simp only [List.find?, Option.map, Option.none_or]
      by_cases hfx : f x = k
      · simp [hfx, lookupA_setKey]
      · have : (f x == k) = false := by simpa using hfx
        simp [this, lookupA_setKey, hfx]

theorem nodupKeys_foldl_setKey {α β : Type} (f : β → String) (g : β → α)
    (l : List β) {m : List (String × α)} (h : NodupKeys m) :
    NodupKeys (l.foldl (fun acc x => setKey acc (f x) (g x)) m) := by
  induction l generalizing m with
  | nil => exact h
  | cons x l ih => exact ih (nodupKeys_setKey (f x) (g x) h)

theorem foldl_registerProduct_fst (ps : List Product)
    (m₁ : List (String × MatchCriteria)) (m₂ : List (String × String)) :
    (ps.foldl registerProduct (m₁, m₂)).1
      = ps.foldl (fun acc p => setKey acc p.id p.matchCriteria) m₁ := by
  induction ps generalizing m₁ m₂ with
  | nil => rfl
  | cons p ps ih => simpa [registerProduct] using ih _ _

theorem foldl_registerProduct_snd (ps : List Product)
    (m₁ : List (String × MatchCriteria)) (m₂ : List (String × String)) :
    (ps.foldl registerProduct (m₁, m₂)).2
      = ps.foldl (fun acc p => setKey acc (generateCriteriaKey p.matchCriteria) p.id) m₂ := by
  induction ps generalizing m₁ m₂ with
  | nil => rfl
  | cons p ps ih => simpa [registerProduct] using ih _ _

/-- Looking up a product id in the built id→criteria map yields the criteria
of the *last* document product with that id, falling back to the initial map. -/
theorem lookupA_register_id (ps : List Product)
    (m₁ : List (String × MatchCriteria)) (m₂ : List (String × String)) (pid : String) :
    lookupA (ps.foldl registerProduct (m₁, m₂)).1 pid
      = ((ps.reverse.find? (fun p => p.id == pid)).map Product.matchCriteria).or
          (lookupA m₁ pid) := by
  rw [foldl_registerProduct_fst]
  exact lookupA_foldl_setKey Product.id Product.matchCriteria ps m₁ pid

/-- Looking up a canonical key in the built key→id map yields the id of the
*last* document product with that canonical key, falling back to the initial
map. -/
theorem lookupA_register_key (ps : List Product)
    (m₁ : List (String × MatchCriteria)) (m₂ : List (String × String)) (k : String) :
    lookupA (ps.foldl registerProduct (m₁, m₂)).2 k
      = ((ps.reverse.find? (fun p => generateCriteriaKey p.matchCriteria == k)).map Product.id).or
          (lookupA m₂ k) := by
  rw [foldl_registerProduct_snd]
  exact lookupA_foldl_setKey (fun p => generateCriteriaKey p.matchCriteria) Product.id ps m₂ k

/-! ## Sample catalog data (the concrete scenario of the documentation) -/

/-- The leaf CPU-tier option of the sample firewall tree. -/
def fourCpuOption : TreeOption :=
  .mk "4-cpu" "4 CPU" "" none

/-- The nested CPU dimension of the sample firewall tree. -/
def cpuNode : TreeNode :=
  .mk "cpu" "CPU" "" "select" true [fourCpuOption]

/-- The vendor option that opens the CPU sub-tree. -/
def fortigateOption : TreeOption :=
  .mk "fortigate" "Fortigate" "" (some cpuNode)

/-- The sample firewall option tree: vendor, then CPU tier. -/
def vendorTree : TreeNode :=
  .mk "vendor" "Vendor" "" "select" true [fortigateOption]

/-- The sample firewall addon. -/
def firewallAddon : Addon :=
  ⟨"firewall", "Firewall", "", 1, "", "", vendorTree⟩

/-- The sample fortigate product. -/
def fortigateProduct : Product :=
  ⟨"8800190627841", "firewall", [("vendor", "fortigate"), ("cpu", "4-cpu")]⟩

/-- A sample document with one addon and one product. -/
def sampleDoc : ProductData :=
  ⟨⟨"", "", some [firewallAddon], some [fortigateProduct]⟩⟩

/-- A first document for re-initialization scenarios. -/
def docA : ProductData :=
  ⟨⟨"", "", none, some [⟨"a", "t", [("k", "1")]⟩]⟩⟩

/-- A second, disjoint document for re-initialization scenarios. -/
def docB : ProductData :=
  ⟨⟨"", "", none, some [⟨"b", "t", [("k", "2")]⟩]⟩⟩

/-- A document with two products sharing the same canonical criteria key. -/
def dupDoc : ProductData :=
  ⟨⟨"", "", none, some [⟨"p1", "t", [("k", "v")]⟩, ⟨"p2", "t", [("k", "v")]⟩]⟩⟩

/-! ## Claims -/

/-- C2: two criteria mappings holding exactly the same key-value pairs (in any
insertion order) canonicalize to the same key, and the mapping with no pairs
canonicalizes to the empty string.  The key is built by sorting the keys in
code-point order and joining `key:value` pairs with `|`. -/
theorem generateCriteriaKey_perm_invariant (c₁ c₂ : MatchCriteria)
    (hp : c₁.Perm c₂) (hnd : NodupKeys c₁) :
    generateCriteriaKey c₁ = generateCriteriaKey c₂
    ∧ generateCriteriaKey ([] : MatchCriteria) = "" := by
  constructor
  · unfold generateCriteriaKey
    have hkeys : List.insertionSort StrLe (keysOf c₁) = List.insertionSort StrLe (keysOf c₂) := by
      apply List.eq_of_perm_of_sorted
        ((List.perm_insertionSort StrLe (keysOf c₁)).trans
          ((hp.map Prod.fst).trans (List.perm_insertionSort StrLe (keysOf c₂)).symm))
        (List.sorted_insertionSort StrLe (keysOf c₁))
        (List.sorted_insertionSort StrLe (keysOf c₂))
    have hval : ∀ k, lookupA c₁ k = lookupA c₂ k := lookupA_perm hp hnd
    simp only [hkeys, hval]
  · rfl

/-- Witness for C2, at the documented sample criteria in two orders. -/
theorem generateCriteriaKey_perm_invariant_witness :
    generateCriteriaKey [("vendor", "fortigate"), ("cpu", "4-cpu")]
      = generateCriteriaKey [("cpu", "4-cpu"), ("vendor", "fortigate")]
    ∧ generateCriteriaKey ([] : MatchCriteria) = "" :=
  generateCriteriaKey_perm_invariant
    [("vendor", "fortigate"), ("cpu", "4-cpu")]
    [("cpu", "4-cpu"), ("vendor", "fortigate")]
    (by decide) (by decide)

/-- C9: the canonical key function is not injective — two distinct criteria
mappings, one with a value containing the `:` separator, share one canonical
key. -/
theorem generateCriteriaKey_not_injective :
    generateCriteriaKey [("a", "b:c")] = generateCriteriaKey [("a:b", "c")]
    ∧ ([("a", "b:c")] : MatchCriteria) ≠ [("a:b", "c")]
    ∧ ':' ∈ "b:c".data :=
  ⟨by decide, by decide, by decide⟩

/-- C1: for every product of the loaded document, looking the product's own
criteria back up through `getProductIdByCriteria` returns the product's id,
provided the canonical keys of the catalog are unique. -/
theorem getProductIdByCriteria_roundTrip (d : ProductData) (ps : List Product)
    (hps : d.attributes.products = some ps)
    (hnd : (ps.map (fun p => generateCriteriaKey p.matchCriteria)).Nodup)
    (P : Product) (hP : P ∈ ps) :
    (JS.ProductLookupService.make d).getProductIdByCriteria P.matchCriteria = some P.id := by
  have hmem' : P ∈ ps.reverse := List.mem_reverse.mpr hP
  have hsome : (ps.reverse.find?
      (fun p => generateCriteriaKey p.matchCriteria == generateCriteriaKey P.matchCriteria)).isSome := by
    rw [List.find?_isSome]
    exact ⟨P, hmem', by simp⟩
  obtain ⟨q, hq⟩ := Option.isSome_iff_exists.mp hsome
  have hqmem : q ∈ ps := List.mem_reverse.mp (List.mem_of_find?_eq_some hq)
  have hqkey : generateCriteriaKey q.matchCriteria = generateCriteriaKey P.matchCriteria := by
    simpa using List.find?_some hq
  have hqP : q = P := List.inj_on_of_nodup_map hnd hqmem hP hqkey
  simp only [JS.ProductLookupService.getProductIdByCriteria, JS.ProductLookupService.make, hps]
  rw [lookupA_register_key, hq, hqP]
  simp

/-- Witness for C1, at the sample document. -/
theorem getProductIdByCriteria_roundTrip_witness :
    (JS.ProductLookupService.make sampleDoc).getProductIdByCriteria
      [("vendor", "fortigate"), ("cpu", "4-cpu")] = some "8800190627841" :=
  getProductIdByCriteria_roundTrip sampleDoc [fortigateProduct] rfl (by decide)
    fortigateProduct (List.mem_singleton.mpr rfl)

/-- C7: loading is silent last-write-wins.  For every canonical key and every
product id, the built maps hold exactly the data of the last-listed document
product matching it (`find?` on the reversed products sequence), and both
lookups are total functions, so no error is ever raised on duplicates. -/
theorem load_lastWriteWins (d : ProductData) (ps : List Product)
    (hps : d.attributes.products = some ps) (k pid : String) :
    lookupA (JS.ProductLookupService.make d).criteriaToProductId k
      = (ps.reverse.find? (fun p => generateCriteriaKey p.matchCriteria == k)).map Product.id
    ∧ lookupA (JS.ProductLookupService.make d).productIdToCriteria pid
      = (ps.reverse.find? (fun p => p.id == pid)).map Product.matchCriteria := by
  constructor
  · simp only [JS.ProductLookupService.make, hps]
    rw [lookupA_register_key]
    simp [lookupA]
  · simp only [JS.ProductLookupService.make, hps]
    rw [lookupA_register_id]
    simp [lookupA]

/-- Witness for C7: with two products sharing one canonical key, the lookup
for that key returns the later product's id. -/
theorem load_lastWriteWins_witness :
    lookupA (JS.ProductLookupService.make dupDoc).criteriaToProductId "k:v" = some "p2" := by
  have h := (load_lastWriteWins dupDoc
    [⟨"p1", "t", [("k", "v")]⟩, ⟨"p2", "t", [("k", "v")]⟩] rfl "k:v" "p2").1
  rw [h]
  decide

/-- C8: querying an unknown product id or an unmatched criteria mapping on an
initialized catalog returns `none`; both operations are total functions of the
state, so no fault is raised. -/
theorem unknown_query_absent (d : ProductData) (ps : List Product)
    (hps : d.attributes.products = some ps) (pid : String) (c : MatchCriteria)
    (hid : ∀ p ∈ ps, p.id ≠ pid)
    (hkey : ∀ p ∈ ps, generateCriteriaKey p.matchCriteria ≠ generateCriteriaKey c) :
    (JS.ProductLookupService.make d).getCriteriaByProductId pid = none
    ∧ (JS.ProductLookupService.make d).getProductIdByCriteria c = none := by
  constructor
  · simp only [JS.ProductLookupService.getCriteriaByProductId,
      JS.ProductLookupService.make, hps]
    rw [lookupA_register_id]
    have hfind : ps.reverse.find? (fun p => p.id == pid) = none := by
      rw [List.find?_eq_none]
      intro p hp
      simpa using hid p (List.mem_reverse.mp hp)
    simp [hfind, lookupA]
  · simp only [JS.ProductLookupService.getProductIdByCriteria,
      JS.ProductLookupService.make, hps]
    rw [lookupA_register_key]
    have hfind : ps.reverse.find?
        (fun p => generateCriteriaKey p.matchCriteria == generateCriteriaKey c) = none := by
      rw [List.find?_eq_none]
      intro p hp
      simpa using hkey p (List.mem_reverse.mp hp)
    simp [hfind, lookupA]

/-- Witness for C8, at the sample document and a configuration it lacks. -/
theorem unknown_query_absent_witness :
    (JS.ProductLookupService.make sampleDoc).getCriteriaByProductId "no-such-id" = none
    ∧ (JS.ProductLookupService.make sampleDoc).getProductIdByCriteria [("vendor", "cisco")] = none :=
  unknown_query_absent sampleDoc [fortigateProduct] rfl "no-such-id" [("vendor", "cisco")]
    (by decide) (by decide)

/-- C3: `searchByPartialCriteria` returns exactly the loaded products whose
criteria agree with every key-value pair of the partial mapping (products
missing one of its keys are excluded, extra keys are ignored), and with the
empty partial mapping it returns every loaded product exactly once (the full
id→criteria map, whose keys are duplicate-free). -/
theorem searchByPartialCriteria_spec (d : ProductData) (pc : MatchCriteria) :
    (∀ e : String × MatchCriteria,
        e ∈ (JS.ProductLookupService.make d).searchByPartialCriteria pc
          ↔ e ∈ (JS.ProductLookupService.make d).productIdToCriteria
            ∧ ∀ kv ∈ pc, lookupA e.2 kv.1 = some kv.2)
    ∧ (JS.ProductLookupService.make d).searchByPartialCriteria []
        = (JS.ProductLookupService.make d).getAllProducts
    ∧ NodupKeys (JS.ProductLookupService.make d).productIdToCriteria := by
  refine ⟨?_, ?_, ?_⟩
  · intro e
    simp only [JS.ProductLookupService.searchByPartialCriteria, List.mem_filter,
      List.all_eq_true, beq_iff_eq]
  · simp [JS.ProductLookupService.searchByPartialCriteria,
      JS.ProductLookupService.getAllProducts]
  · simp only [JS.ProductLookupService.make]
    cases hps : d.attributes.products with
    | none =>
      simp only [hps]
      exact List.nodup_nil
    | some ps =>
      simp only [hps]
      rw [foldl_registerProduct_fst]
      exact nodupKeys_foldl_setKey Product.id Product.matchCriteria ps List.nodup_nil

/-- Witness for C3, at the sample document with a one-key partial mapping. -/
theorem searchByPartialCriteria_spec_witness :
    (("8800190627841", [("vendor", "fortigate"), ("cpu", "4-cpu")]) ∈
        (JS.ProductLookupService.make sampleDoc).searchByPartialCriteria [("vendor", "fortigate")]
      ↔ ("8800190627841", [("vendor", "fortigate"), ("cpu", "4-cpu")]) ∈
          (JS.ProductLookupService.make sampleDoc).productIdToCriteria
        ∧ ∀ kv ∈ ([("vendor", "fortigate")] : MatchCriteria),
            lookupA [("vendor", "fortigate"), ("cpu", "4-cpu")] kv.1 = some kv.2)
    ∧ (JS.ProductLookupService.make sampleDoc).searchByPartialCriteria []
        = (JS.ProductLookupService.make sampleDoc).getAllProducts
    ∧ NodupKeys (JS.ProductLookupService.make sampleDoc).productIdToCriteria := by
  have h := searchByPartialCriteria_spec sampleDoc [("vendor", "fortigate")]
  exact ⟨h.1 ("8800190627841", [("vendor", "fortigate"), ("cpu", "4-cpu")]), h.2.1, h.2.2⟩

/-- C5 counterexample: the Angular `initialize` never clears the maps, so
after re-initializing with a fresh document the canonical key of a product
loaded from the *previous* document still resolves to that old product's id —
while the same lookup on a service initialized only with the new document
returns `none`.  The stale entry therefore remains reachable, contradicting
the claim that re-initialization fully replaces prior lookup results. -/
theorem reinit_stale_entry_counterexample :
    NG.getProductIdByCriteria
        (NG.svcInitialize (NG.svcInitialize NG.ServiceState.empty docA) docB)
        [("k", "1")] = some "a"
    ∧ NG.getProductIdByCriteria (NG.svcInitialize NG.ServiceState.empty docB)
        [("k", "1")] = none :=
  ⟨by decide, by decide⟩

/-- C5 amended: re-running `initialize` with a new document *merges* instead
of replacing — each of the three lookup maps afterwards answers with the new
document's entries (last-listed wins), falling back to the previous state's
entry when the new document does not overwrite that key, id, or addon id, so
non-colliding entries from the previous document remain reachable. -/
theorem reinit_merges_maps (s : NG.ServiceState) (d : ProductData)
    (k pid aid : String) :
    lookupA (NG.svcInitialize s d).criteriaToProductId k
      = (((d.attributes.products.getD []).reverse.find?
            (fun p => generateCriteriaKey p.matchCriteria == k)).map Product.id).or
          (lookupA s.criteriaToProductId k)
    ∧ lookupA (NG.svcInitialize s d).productIdToCriteria pid
      = (((d.attributes.products.getD []).reverse.find?
            (fun p => p.id == pid)).map Product.matchCriteria).or
          (lookupA s.productIdToCriteria pid)
    ∧ lookupA (NG.svcInitialize s d).addonsMap aid
      = (((d.attributes.addons.getD []).reverse.find? (fun a => a.id == aid)).map id).or
          (lookupA s.addonsMap aid) := by
  refine ⟨?_, ?_, ?_⟩
  · cases hps : d.attributes.products with
    | none => simp [NG.svcInitialize, hps]
    | some ps =>
      simp only [NG.svcInitialize, hps, Option.getD_some]
      rw [lookupA_register_key]
  · cases hps : d.attributes.products with
    | none => simp [NG.svcInitialize, hps]
    | some ps =>
      simp only [NG.svcInitialize, hps, Option.getD_some]
      rw [lookupA_register_id]
  · cases has : d.attributes.addons with
    | none => simp [NG.svcInitialize, has]
    | some addons =>
      simp only [NG.svcInitialize, has, Option.getD_some]
      have h := lookupA_foldl_setKey Addon.id (fun a => a) addons s.addonsMap aid
      simpa [Option.map_id] using h

/-- C6: on an initialized state, the enriched `getCriteriaByProductId`
returns `none` exactly when one of its three sequential steps fails — no
stored criteria for the id, no product with that id in the document's
products sequence, or no registered addon for the product's `addonType` —
and when all three succeed it returns the enriched object built from the
product id, the product's addon type, the stored criteria, the tree-resolved
selected options, and the addon. -/
theorem getCriteriaByProductId_enrichment (s : NG.ServiceState) (d : ProductData)
    (ps : List Product) (pid : String)
    (hd : s.data = some d) (hps : d.attributes.products = some ps) :
    (NG.getCriteriaByProductId s pid = none ↔
      lookupA s.productIdToCriteria pid = none
      ∨ ps.find? (fun p => p.id == pid) = none
      ∨ ∃ p, ps.find? (fun q => q.id == pid) = some p
          ∧ lookupA s.addonsMap p.addonType = none)
    ∧ (∀ mc p a, lookupA s.productIdToCriteria pid = some mc →
        ps.find? (fun q => q.id == pid) = some p →
        lookupA s.addonsMap p.addonType = some a →
        NG.getCriteriaByProductId s pid
          = some ⟨pid, p.addonType, mc, traverseTree a.tree mc [], a⟩) := by
  have hlist : s.productsList = ps := by
    simp [NG.ServiceState.productsList, hd, hps]
  constructor
  · cases h1 : lookupA s.productIdToCriteria pid with
    | none => simp [NG.getCriteriaByProductId, h1]
    | some mc =>
      cases h2 : ps.find? (fun q => q.id == pid) with
      | none => simp [NG.getCriteriaByProductId, h1, hlist, h2]
      | some p =>
        cases h3 : lookupA s.addonsMap p.addonType with
        | none => simp [NG.getCriteriaByProductId, h1, hlist, h2, h3]
        | some a => simp [NG.getCriteriaByProductId, h1, hlist, h2, h3]
  · intro mc p a h1 h2 h3
    simp [NG.getCriteriaByProductId, h1, hlist, h2, h3]

/-- Witness for C6, the documented enrichment scenario: the sample product
resolves to the enriched object whose selected options carry the Fortigate
and 4 CPU tree options. -/
theorem getCriteriaByProductId_enrichment_witness :
    NG.getCriteriaByProductId (NG.svcInitialize NG.ServiceState.empty sampleDoc)
        "8800190627841"
      = some ⟨"8800190627841", "firewall",
              [("vendor", "fortigate"), ("cpu", "4-cpu")],
              traverseTree firewallAddon.tree
                [("vendor", "fortigate"), ("cpu", "4-cpu")] [],
              firewallAddon⟩ :=
  (getCriteriaByProductId_enrichment
      (NG.svcInitialize NG.ServiceState.empty sampleDoc) sampleDoc
      [fortigateProduct] "8800190627841" rfl rfl).2
    [("vendor", "fortigate"), ("cpu", "4-cpu")] fortigateProduct firewallAddon
    (by decide) (by rfl) (by rfl)

/-- C4: the tree resolver records nothing and stops when the node's id is
absent from the criteria or maps to the falsy empty value; otherwise it takes
the first option (in sequence order, via `find?`) whose value equals the
criteria value, records it under the node's id, and recurses into that
option's children exactly when children exist — and along the single path it
takes it keeps at most one recorded option per criterion id (duplicate-free
keys are preserved). -/
theorem traverseTree_spec (node : TreeNode) (criteria : MatchCriteria)
    (so : List (String × TreeOption)) :
    (lookupA criteria node.id = none → traverseTree node criteria so = so)
    ∧ (lookupA criteria node.id = some "" → traverseTree node criteria so = so)
    ∧ (∀ v, lookupA criteria node.id = some v → v ≠ "" →
        node.options.find? (fun o => o.value == v) = none →
        traverseTree node criteria so = so)
    ∧ (∀ v opt, lookupA criteria node.id = some v → v ≠ "" →
        node.options.find? (fun o => o.value == v) = some opt →
        (opt.children = none → traverseTree node criteria so = setKey so node.id opt)
        ∧ ∀ child, opt.children = some child →
            traverseTree node criteria so = traverseTree child criteria (setKey so node.id opt))
    ∧ (NodupKeys so → NodupKeys (traverseTree node criteria so)) :=
  ⟨traverseTree_none node criteria so,
   traverseTree_falsy node criteria so,
   fun v hv hne hf => traverseTree_nomatch node criteria so v hv hne hf,
   fun v opt hv hne hf =>
     ⟨fun hc => traverseTree_leaf node criteria so v opt hv hne hf hc,
      fun child hc => traverseTree_descend node criteria so v opt child hv hne hf hc⟩,
   traverseTree_nodupKeys node criteria so⟩

/-- Witness for C4, at the sample tree: the matched vendor option is recorded
and the walk descends into the CPU sub-tree. -/
theorem traverseTree_spec_witness :
    traverseTree vendorTree [("vendor", "fortigate"), ("cpu", "4-cpu")] []
      = traverseTree cpuNode [("vendor", "fortigate"), ("cpu", "4-cpu")]
          (setKey [] vendorTree.id fortigateOption) :=
  ((traverseTree_spec vendorTree [("vendor", "fortigate"), ("cpu", "4-cpu")] []).2.2.2.1
      "fortigate" fortigateOption rfl (by decide) rfl).2 cpuNode rfl

/-- C10: `traverseTree` terminates — each recursive call descends into a
matched option's children subtree, strictly decreasing `nodeDepth`, so a fuel
budget of the tree's depth always suffices: the fuel-indexed walk never runs
out and computes exactly the total function's result. -/
theorem traverseTree_terminates (fuel : Nat) (node : TreeNode) (criteria : MatchCriteria)
    (so : List (String × TreeOption)) (h : nodeDepth node ≤ fuel) :
    traverseTreeFuel fuel node criteria so = some (traverseTree node criteria so) := by
  induction fuel generalizing node so with
  | zero =>
    have := nodeDepth_pos node
    omega
  | succ fuel ih =>
    cases hv : lookupA criteria node.id with
    | none =>
      rw [traverseTree_none node criteria so hv]
      simp [traverseTreeFuel, hv]
    | some v =>
      by_cases hve : v = ""
      · subst hve
        rw [traverseTree_falsy node criteria so hv]
        simp [traverseTreeFuel, hv]
      · cases hfind : node.options.find? (fun opt => opt.value == v) with
        | none =>
          rw [traverseTree_nomatch node criteria so v hv hve hfind]
          simp [traverseTreeFuel, hv, hve, hfind]
        | some opt =>
          cases hc : opt.children with
          | none =>
            rw [traverseTree_leaf node criteria so v opt hv hve hfind hc]
            simp [traverseTreeFuel, hv, hve, hfind, hc]
          | some child =>
            rw [traverseTree_descend node criteria so v opt child hv hve hfind hc]
            have hlt : nodeDepth child < nodeDepth node :=
              nodeDepth_children_lt (List.mem_of_find?_eq_some hfind) hc
            have hle : nodeDepth child ≤ fuel := by omega
            have hrec := ih child (setKey so node.id opt) hle
            simp [traverseTreeFuel, hv, hve, hfind, hc, hrec]

/-- Witness for C10: the sample tree has depth 2, and with fuel 2 the
fuel-indexed walk completes with the total function's result. -/
theorem traverseTree_terminates_witness :
    traverseTreeFuel 2 vendorTree [("vendor", "fortigate"), ("cpu", "4-cpu")] []
      = some (traverseTree vendorTree [("vendor", "fortigate"), ("cpu", "4-cpu")] []) :=
  traverseTree_terminates 2 vendorTree [("vendor", "fortigate"), ("cpu", "4-cpu")] []
    (by decide)

end Assets
